import Mathlib

/-!
Shallow embedding of the `study-blockchain-js` repository.

The repository contains two variants of the same educational blockchain:
* the generic-payload variant (`index.js`): `Block(index, timestamp, data, prevHash)`
  with proof-of-work mining and `Blockchain.addBlock`;
* the transaction-bearing (ledger) variant (`src/unnamed/part_001`):
  `Block(timestamp, transaction, prevHash)`, `Blockchain.minePedingTransactions`,
  `createTransaction`, `getBalanceOfAddress`.

The external SHA-256 provider is modelled as an explicit function parameter
`H : String → String`; every digest computed by the code is `H` applied to the
exact concatenation the JavaScript builds (including the `"undefined"` strings
that JavaScript produces when a referenced field does not exist at that moment).
JavaScript's unbounded `while` mining loop is modelled with explicit fuel,
returning `none` when the fuel is exhausted.
-/

namespace SBJS

/-- JavaScript values used as `data` payloads in the generic variant:
the genesis string `"Genesis block"` and objects of shape `{amount: n}`. -/
inductive JsData
  | str (s : String)
  | amount (n : Nat)
deriving DecidableEq

/-- `JSON.stringify` on the payload values the program actually constructs. -/
def jsonStringify : JsData → String
  | .str s => "\"" ++ s ++ "\""
  | .amount n => "\x7b\"amount\":" ++ toString n ++ "\x7d"

/-- `Array(d + 1).join("0")`: a string of `d` zero characters. -/
def zeros (d : Nat) : String := String.mk (List.replicate d '0')

/-- `s.substring(0, n)` of JavaScript: the first `n` characters. -/
def strTake (s : String) (n : Nat) : String := String.mk (s.data.take n)

/-! ### Generic-payload variant (`index.js`) -/

/-- A block of the generic variant: fields exactly as the constructor sets them. -/
structure Block where
  index : Nat
  timestamp : String
  data : JsData
  prevHash : String
  hash : String
  nonce : Nat
deriving DecidableEq

/-- The string hashed by `calculateHash()`:
`this.index + this.prevHash + this.timestamp + JSON.stringify(this.data) + this.nonce`,
with the nonce slot passed separately because the constructor evaluates it while
`this.nonce` is still `undefined`. -/
def Block.hashInput (b : Block) (nonceStr : String) : String :=
  toString b.index ++ b.prevHash ++ b.timestamp ++ jsonStringify b.data ++ nonceStr

/-- `calculateHash()` called once `nonce` is a number. -/
def Block.calculateHash (H : String → String) (b : Block) : String :=
  H (b.hashInput (toString b.nonce))

/-- `new Block(index, timestamp, data, prevHash)`. The constructor assigns
`this.hash = this.calculateHash()` *before* `this.nonce = 0`, so the hashed
nonce slot stringifies as `"undefined"`. -/
def Block.new (H : String → String) (index : Nat) (timestamp : String)
    (data : JsData) (prevHash : String := "") : Block :=
  let b0 : Block :=
    { index := index, timestamp := timestamp, data := data, prevHash := prevHash,
      hash := "", nonce := 0 }
  { b0 with hash := H (b0.hashInput "undefined") }

/-- One iteration of the mining loop body: `this.nonce++; this.hash = this.calculateHash()`. -/
def Block.mineStep (H : String → String) (b : Block) : Block :=
  let b' : Block := { b with nonce := b.nonce + 1 }
  { b' with hash := b'.calculateHash H }

/-- `mineBlock(difficulty)`: loop while
`this.hash.substring(0, difficulty) !== Array(difficulty + 1).join("0")`,
modelled with fuel (`none` when the fuel runs out before the loop exits). -/
def Block.mineBlock (H : String → String) (difficulty : Nat) :
    Nat → Block → Option Block
  | 0, b =>
    if strTake b.hash difficulty = zeros difficulty then some b else none
  | fuel + 1, b =>
    if strTake b.hash difficulty = zeros difficulty then some b
    else Block.mineBlock H difficulty fuel (b.mineStep H)

/-- The generic-variant `Blockchain`: the chain and the mining difficulty. -/
structure Blockchain where
  chain : List Block
  difficulty : Nat
deriving DecidableEq

/-- `createGenesisBlock()` of the generic variant:
`new Block(0, createTimeStamp(), "Genesis block", "0")`
with the timestamp provider's output passed in as `ts`. -/
def Blockchain.createGenesisBlock (H : String → String) (ts : String) : Block :=
  Block.new H 0 ts (.str "Genesis block") "0"

/-- `new Blockchain()`: genesis-only chain, difficulty 2. -/
def Blockchain.new (H : String → String) (ts : String) : Blockchain :=
  { chain := [Blockchain.createGenesisBlock H ts], difficulty := 2 }

/-- `getLatestBlock()`: `this.chain[this.chain.length - 1]`. -/
def Blockchain.getLatestBlock (bc : Blockchain) : Option Block :=
  bc.chain.getLast?

/-- `addBlock(newBlock)`: link to the latest block's hash, mine, push.
`none` only when the mining fuel is exhausted (the chain is never empty). -/
def Blockchain.addBlock (H : String → String) (fuel : Nat) (bc : Blockchain)
    (newBlock : Block) : Option Blockchain :=
  match bc.chain.getLast? with
  | none => none
  | some latest =>
    match Block.mineBlock H bc.difficulty fuel { newBlock with prevHash := latest.hash } with
    | none => none
    | some mined => some { bc with chain := bc.chain ++ [mined] }

/-- The failure `isChainValid()` reports through `console.error` before
returning `false`: a hash mismatch or a previous-hash link mismatch, at a
chain index. -/
inductive ChainFailure
  | hashMismatch (i : Nat)
  | linkMismatch (i : Nat)
deriving DecidableEq

/-- The validation loop of `isChainValid()` from position `i`, carrying the
previous block: first checks `currentBlock.hash !== currentBlock.calculateHash()`,
then `currentBlock.prevHash !== previousBlock.hash`. -/
def firstFailureFrom (H : String → String) : Nat → Block → List Block → Option ChainFailure
  | _, _, [] => none
  | i, prev, cur :: rest =>
    if cur.hash ≠ cur.calculateHash H then some (.hashMismatch i)
    else if cur.prevHash ≠ prev.hash then some (.linkMismatch i)
    else firstFailureFrom H (i + 1) cur rest

/-- The first failure `isChainValid()` reports, if any (the loop starts at index 1). -/
def Blockchain.firstFailure (H : String → String) (bc : Blockchain) : Option ChainFailure :=
  match bc.chain with
  | [] => none
  | g :: rest => firstFailureFrom H 1 g rest

/-- `isChainValid()`: `true` exactly when no check in the loop fails. -/
def Blockchain.isChainValid (H : String → String) (bc : Blockchain) : Bool :=
  match bc.firstFailure H with
  | none => true
  | some _ => false

/-! ### Transaction-bearing (ledger) variant (`src/unnamed/part_001`) -/

/-- `class Transaction`: `fromAddress` is `null` (`none`) for mining rewards. -/
structure Transaction where
  fromAddress : Option String
  toAddress : String
  amount : Int
deriving DecidableEq

/-- The `transaction` field of a ledger-mode block: either the genesis string
`"Genesis block"` or the array of pending transactions packaged by mining. -/
inductive LPayload
  | str (s : String)
  | txs (l : List Transaction)
deriving DecidableEq

/-- A block of the ledger variant: the constructor sets exactly
`timestamp`, `transaction`, `prevHash`, `hash`, `nonce` — there is no `index`
and no `data` field on this variant. -/
structure LBlock where
  timestamp : String
  transaction : LPayload
  prevHash : String
  hash : String
  nonce : Nat
deriving DecidableEq

/-- The string hashed by the ledger variant's `calculateHash()`. The source reads
`this.index` and `this.data`, neither of which exists on this variant's blocks,
so both stringify as `"undefined"`; the `transaction` payload is never hashed. -/
def LBlock.hashInput (b : LBlock) (nonceStr : String) : String :=
  "undefined" ++ b.prevHash ++ b.timestamp ++ "undefined" ++ nonceStr

/-- Ledger-variant `calculateHash()` once `nonce` is a number. -/
def LBlock.calculateHash (H : String → String) (b : LBlock) : String :=
  H (b.hashInput (toString b.nonce))

/-- `new Block(timestamp, transaction, prevHash)` of the ledger variant; as in
the generic variant, the hash is assigned while `this.nonce` is still
`undefined`. -/
def LBlock.new (H : String → String) (timestamp : String) (transaction : LPayload)
    (prevHash : String := "") : LBlock :=
  let b0 : LBlock :=
    { timestamp := timestamp, transaction := transaction, prevHash := prevHash,
      hash := "", nonce := 0 }
  { b0 with hash := H (b0.hashInput "undefined") }

/-- One iteration of the ledger variant's mining loop body. -/
def LBlock.mineStep (H : String → String) (b : LBlock) : LBlock :=
  let b' : LBlock := { b with nonce := b.nonce + 1 }
  { b' with hash := b'.calculateHash H }

/-- Ledger-variant `mineBlock(difficulty)`, fuelled like the generic one. -/
def LBlock.mineBlock (H : String → String) (difficulty : Nat) :
    Nat → LBlock → Option LBlock
  | 0, b =>
    if strTake b.hash difficulty = zeros difficulty then some b else none
  | fuel + 1, b =>
    if strTake b.hash difficulty = zeros difficulty then some b
    else LBlock.mineBlock H difficulty fuel (b.mineStep H)

/-- The ledger-variant `Blockchain`: chain, difficulty, pending-transaction
pool, and the mining reward constant. -/
structure LBlockchain where
  chain : List LBlock
  difficulty : Nat
  pendingTransaction : List Transaction
  miningReward : Int
deriving DecidableEq

/-- Ledger-variant `createGenesisBlock()`:
`new Block(createTimeStamp(), "Genesis block", "0")`. -/
def LBlockchain.createGenesisBlock (H : String → String) (ts : String) : LBlock :=
  LBlock.new H ts (.str "Genesis block") "0"

/-- Ledger-variant `new Blockchain()`: genesis-only chain, difficulty 2, empty
pool, mining reward 100. -/
def LBlockchain.new (H : String → String) (ts : String) : LBlockchain :=
  { chain := [LBlockchain.createGenesisBlock H ts], difficulty := 2,
    pendingTransaction := [], miningReward := 100 }

/-- `getLatestBlock()` of the ledger variant. -/
def LBlockchain.getLatestBlock (bc : LBlockchain) : Option LBlock :=
  bc.chain.getLast?

/-- `minePedingTransactions(miningRewardAddress)` (name as in the source):
builds `new Block(createTimeStamp(), this.pendingTransaction)` — the third
constructor argument is omitted, so the new block's `prevHash` is the default
`''` — mines it, pushes it, and resets the pool to the single reward
transaction `new Transaction(null, miningRewardAddress, this.miningReward)`. -/
def LBlockchain.minePedingTransactions (H : String → String) (fuel : Nat)
    (bc : LBlockchain) (miningRewardAddress : String) (ts : String) :
    Option LBlockchain :=
  match LBlock.mineBlock H bc.difficulty fuel (LBlock.new H ts (.txs bc.pendingTransaction)) with
  | none => none
  | some block =>
    some { bc with
           chain := bc.chain ++ [block],
           pendingTransaction := [⟨none, miningRewardAddress, bc.miningReward⟩] }

/-- `createTransaction(transaction)`: push onto the pending pool. -/
def LBlockchain.createTransaction (bc : LBlockchain) (t : Transaction) : LBlockchain :=
  { bc with pendingTransaction := bc.pendingTransaction ++ [t] }

/-- An element produced by `for (let trans of block.transaction)`: when the
payload is a transaction array the elements are transactions; when it is a
string (the genesis payload) JavaScript iterates its characters. -/
inductive TxElem
  | tx (t : Transaction)
  | ch (c : Char)
deriving DecidableEq

/-- The element sequence `for...of` traverses for a payload. -/
def LPayload.elems : LPayload → List TxElem
  | .str s => s.data.map .ch
  | .txs l => l.map .tx

/-- `trans.fromAddress` as seen by the loop: `null`/`undefined` (both compare
`false` with `===` against any string address) are modelled as `none`; property
access on a character (a one-character string) yields `undefined`. -/
def TxElem.fromA : TxElem → Option String
  | .tx t => t.fromAddress
  | .ch _ => none

/-- `trans.toAddress` as seen by the loop; `undefined` on a character. -/
def TxElem.toA : TxElem → Option String
  | .tx t => some t.toAddress
  | .ch _ => none

/-- `trans.amount`; on a character this is `undefined`, but it is only ever
read under an address guard that is `false` for characters, so any value is
observationally equivalent — 0 is used. -/
def TxElem.amt : TxElem → Int
  | .tx t => t.amount
  | .ch _ => 0

/-- The two guarded updates in the body of `getBalanceOfAddress`'s inner loop. -/
def balStep (address : String) (balance : Int) (e : TxElem) : Int :=
  let b1 := if e.fromA = some address then balance - e.amt else balance
  if e.toA = some address then b1 + e.amt else b1

/-- `getBalanceOfAddress(address)`: fold the two nested `for...of` loops,
starting from balance 0. -/
def LBlockchain.getBalanceOfAddress (bc : LBlockchain) (address : String) : Int :=
  bc.chain.foldl (fun bal b => b.transaction.elems.foldl (balStep address) bal) 0

/-- The ledger variant's validation loop (same code as the generic variant,
over ledger blocks). -/
def lFirstFailureFrom (H : String → String) : Nat → LBlock → List LBlock → Option ChainFailure
  | _, _, [] => none
  | i, prev, cur :: rest =>
    if cur.hash ≠ cur.calculateHash H then some (.hashMismatch i)
    else if cur.prevHash ≠ prev.hash then some (.linkMismatch i)
    else lFirstFailureFrom H (i + 1) cur rest

/-- The first failure the ledger variant's `isChainValid()` reports, if any. -/
def LBlockchain.firstFailure (H : String → String) (bc : LBlockchain) : Option ChainFailure :=
  match bc.chain with
  | [] => none
  | g :: rest => lFirstFailureFrom H 1 g rest

/-- Ledger-variant `isChainValid()`. -/
def LBlockchain.isChainValid (H : String → String) (bc : LBlockchain) : Bool :=
  match bc.firstFailure H with
  | none => true
  | some _ => false

/-- A public ledger-variant operation: `createTransaction` or
`minePedingTransactions` (the latter drawing a fresh timestamp `ts`). -/
inductive LOp
  | createTx (t : Transaction)
  | mine (addr : String) (ts : String)

/-- Run one public operation. -/
def LBlockchain.applyOp (H : String → String) (fuel : Nat) (bc : LBlockchain) :
    LOp → Option LBlockchain
  | .createTx t => some (bc.createTransaction t)
  | .mine addr ts => bc.minePedingTransactions H fuel addr ts

/-- Run a sequence of public operations. -/
def LBlockchain.build (H : String → String) (fuel : Nat) (bc : LBlockchain) :
    List LOp → Option LBlockchain
  | [] => some bc
  | op :: ops =>
    match bc.applyOp H fuel op with
    | none => none
    | some bc' => LBlockchain.build H fuel bc' ops

/-! ### A concrete hash provider for closed scenario runs

`H0` prepends two characters to its input: `"ff"` when the input's last
character is `'d'` (which happens exactly for the constructor-time inputs,
ending in `"undefined"`), `"00"` otherwise (inputs ending in a decimal nonce).
With difficulty 2 every mining run therefore performs exactly one loop
iteration, mirroring a successful SHA-256 search, and distinct inputs get
distinct digests. -/

/-- A concrete injective stand-in for the SHA-256 provider. -/
def H0 (s : String) : String :=
  if s.data.getLast? = some 'd' then "ff" ++ s else "00" ++ s

/-! ### Tampering helpers (the in-place mutations the spec's scenarios perform) -/

/-- `chain[i].data = d` on a generic-variant chain. -/
def setDataG : List Block → Nat → JsData → List Block
  | [], _, _ => []
  | b :: rest, 0, d => { b with data := d } :: rest
  | b :: rest, i + 1, d => b :: setDataG rest i d

/-- `chain[i].hash = chain[i].calculateHash()` on a generic-variant chain. -/
def recomputeHashG (H : String → String) : List Block → Nat → List Block
  | [], _ => []
  | b :: rest, 0 => { b with hash := b.calculateHash H } :: rest
  | b :: rest, i + 1 => b :: recomputeHashG H rest i

/-- `chain[i].transaction = p` on a ledger-variant chain. -/
def setPayloadL : List LBlock → Nat → LPayload → List LBlock
  | [], _, _ => []
  | b :: rest, 0, p => { b with transaction := p } :: rest
  | b :: rest, i + 1, p => b :: setPayloadL rest i p

/-! ### Concrete scenario runs (provider `H0`, fixed timestamp tokens) -/

/-- A fresh ledger-variant blockchain followed by one `minePedingTransactions("M")`. -/
def ledgerOneMine : Option LBlockchain :=
  (LBlockchain.new H0 "t0").build H0 2 [.mine "M" "t1"]

/-- Scenario A: genesis-only generic-variant ledger, then three `addBlock` calls
with payloads `{amount:4}`, `{amount:8}`, `{amount:10}`. -/
def scenarioA : Option Blockchain :=
  ((Blockchain.new H0 "g").addBlock H0 9 (Block.new H0 1 "t1" (.amount 4))).bind (fun bc =>
    (bc.addBlock H0 9 (Block.new H0 2 "t2" (.amount 8))).bind (fun bc =>
      bc.addBlock H0 9 (Block.new H0 3 "t3" (.amount 10))))

/-- Scenario B: Scenario A, then `chain[1].data = {amount:100}` and
`chain[1].hash = chain[1].calculateHash()`. -/
def scenarioB : Option Blockchain :=
  scenarioA.map (fun bc =>
    { bc with chain := recomputeHashG H0 (setDataG bc.chain 1 (.amount 100)) 1 })

/-- Scenario C: transactions `(A→B, 100)` and `(A→B, 200)`, then one
`minePedingTransactions("M")`. -/
def scenarioC : Option LBlockchain :=
  (LBlockchain.new H0 "t0").build H0 2
    [.createTx ⟨some "A", "B", 100⟩, .createTx ⟨some "A", "B", 200⟩, .mine "M" "t1"]

/-- The ledger produced by `ledgerOneMine`, written out (checked against
`ledgerOneMine` by kernel evaluation in the witnesses below). -/
def wLedger : LBlockchain :=
  ⟨[⟨"t0", .str "Genesis block", "0", "ffundefined0t0undefinedundefined", 0⟩,
    ⟨"t1", .txs [], "", "00undefinedt1undefined1", 1⟩],
   2, [⟨none, "M", 100⟩], 100⟩

/-- Whether a block's payload is a transaction array (the shape the balance
scan meaningfully processes). -/
def LBlock.hasTxArray (b : LBlock) : Bool :=
  match b.transaction with
  | .txs _ => true
  | .str _ => false

/-- A concrete genesis-like block for witnesses (the identity provider). -/
def wg : Block := ⟨0, "t0", .str "G", "0", "h0", 0⟩

/-- A concrete internally consistent successor of `wg` under the identity
provider: its stored hash equals its recomputed hash and it links to `wg`. -/
def wb1 : Block :=
  let b : Block := ⟨1, "t1", .amount 4, "h0", "", 0⟩
  { b with hash := b.calculateHash id }

/-- A concrete two-block chain passing validation under the identity provider. -/
def wbc : Blockchain := ⟨[wg, wb1], 2⟩

/-! ### Balance accounting (for the conservation claim) -/

/-- The full element sequence the balance scan traverses, in chain order. -/
def LBlockchain.allElems (L : LBlockchain) : List TxElem :=
  (L.chain.map (fun b => b.transaction.elems)).flatten

/-- The addresses appearing (as sender or recipient) in any transaction of the
chain. -/
def LBlockchain.appearingAddresses (L : LBlockchain) : Finset String :=
  (L.allElems.filterMap TxElem.fromA ++ L.allElems.filterMap TxElem.toA).toFinset

/-- The sum of `getBalanceOfAddress a` over every appearing address `a`. -/
def LBlockchain.grandTotal (L : LBlockchain) : Int :=
  L.appearingAddresses.sum (fun a => L.getBalanceOfAddress a)

/-- The amount carried by `e` when it is a system-minted (null-sender)
transaction. -/
def rewardFn : TxElem → Option Int
  | .tx t =>
    match t.fromAddress with
    | none => some t.amount
    | some _ => none
  | .ch _ => none

/-- The amounts of the system-minted (null-sender) transactions embedded in
the chain, in order. -/
def LBlockchain.rewardAmounts (L : LBlockchain) : List Int :=
  L.allElems.filterMap rewardFn

/-- The net effect of a single element on the sum of all balances. -/
def rewardContrib : TxElem → Int
  | .tx t =>
    match t.fromAddress with
    | none => t.amount
    | some _ => 0
  | .ch _ => 0

/-- A peer-to-peer element: a transaction with a real (non-null) sender.
Characters of a string payload transfer nothing and count as benign. -/
def TxElem.p2p : TxElem → Bool
  | .tx t => t.fromAddress.isSome
  | .ch _ => true

/-- The contribution of a single element to `getBalanceOfAddress a`. -/
def contrib (a : String) (e : TxElem) : Int :=
  (if e.toA = some a then e.amt else 0) - (if e.fromA = some a then e.amt else 0)

/-- A concrete chain holding only peer-to-peer transactions (conservation
witness). -/
def wLedger2 : LBlockchain :=
  ⟨[⟨"t0", .str "G", "0", "h", 0⟩,
    ⟨"t1", .txs [⟨some "A", "B", 100⟩, ⟨some "A", "B", 200⟩], "", "h2", 1⟩], 2, [], 100⟩

/-- A concrete chain holding one reward transaction (conservation witness). -/
def wLedger3 : LBlockchain :=
  ⟨[⟨"t0", .str "G", "0", "h", 0⟩,
    ⟨"t1", .txs [⟨none, "M", 100⟩], "", "h2", 1⟩], 2, [], 100⟩

/-! ### Helper lemmas -/

lemma dataAppend (s t : String) : (s ++ t).data = s.data ++ t.data := by
  cases s; cases t; rfl

lemma stringEqOfDataEq {s t : String} (h : s.data = t.data) : s = t := by
  cases s; cases t; cases h; rfl

/-- Mining never touches `prevHash` (ledger variant). -/
lemma lMineBlock_prevHash (H : String → String) (d : Nat) :
    ∀ (fuel : Nat) (b b' : LBlock), LBlock.mineBlock H d fuel b = some b' →
      b'.prevHash = b.prevHash := by
  intro fuel
  induction fuel with
  | zero =>
    intro b b' h
    rw [LBlock.mineBlock] at h
    split at h
    · cases h; rfl
    · cases h
  | succ n ih =>
    intro b b' h
    rw [LBlock.mineBlock] at h
    split at h
    · cases h; rfl
    · exact (ih _ _ h).trans rfl

/-! ### Claims -/

/-- C1: the spec's P1 claims every Ledger built solely through the public
operations validates. Evaluating the ledger variant after a single
`minePedingTransactions("M")` from a fresh ledger: `isChainValid()` is `false`,
the loop failing the previous-hash link check at index 1 (the mined block's
`prevHash` is the constructor default `''`, never the tip's hash). -/
theorem c1_ledger_build_invalid :
    ledgerOneMine.map (LBlockchain.isChainValid H0) = some false ∧
    ledgerOneMine.map (LBlockchain.firstFailure H0) = some (some (.linkMismatch 1)) :=
  ⟨rfl, rfl⟩

/-- C2: the spec claims `minePendingTransactions` sets the new block's link to
the current tip. In the code the block is constructed as
`new Block(createTimeStamp(), this.pendingTransaction)` with the `prevHash`
argument omitted, so whenever the call returns, the appended block's
`prevHash` is the default `''`. -/
theorem c2_mined_block_prevHash_empty (H : String → String) (fuel : Nat)
    (bc : LBlockchain) (addr ts : String) (L : LBlockchain)
    (h : bc.minePedingTransactions H fuel addr ts = some L) :
    L.chain.getLast?.map LBlock.prevHash = some "" := by
  rw [LBlockchain.minePedingTransactions] at h
  rcases hm : LBlock.mineBlock H bc.difficulty fuel
      (LBlock.new H ts (.txs bc.pendingTransaction)) with _ | b
  · rw [hm] at h; cases h
  · rw [hm] at h
    cases h
    have hb : b.prevHash = "" := lMineBlock_prevHash H bc.difficulty fuel _ b hm
    simp [List.getLast?_concat, hb]

/-- C2 witness: the concrete one-mine run; the appended block's `prevHash` is
`''` while the tip's hash before the call was not `''`. -/
theorem c2_witness :
    wLedger.chain.getLast?.map LBlock.prevHash = some "" ∧
    (LBlockchain.new H0 "t0").getLatestBlock.map LBlock.hash ≠ some "" :=
  ⟨c2_mined_block_prevHash_empty H0 2 (LBlockchain.new H0 "t0") "M" "t1" wLedger
    (by decide), by decide⟩

/-- C3 counterexample: running Scenario C (transactions `(A→B,100)`,
`(A→B,200)`, one `minePedingTransactions("M")`), the miner's balance does not
equal `miningReward`. -/
theorem c3_counterexample :
    scenarioC.map (fun L => decide (L.getBalanceOfAddress "M" = L.miningReward)) =
      some false := by decide

/-- C3 amended: after Scenario C the balances are `M = 0` (the reward
transaction is only pending, not yet mined), `B = 300`, `A = -300`; the
miner's balance becomes `miningReward = 100` only after a second
`minePedingTransactions`. -/
theorem c3_scenarioC_balances :
    scenarioC.map (fun L =>
        (L.getBalanceOfAddress "M", L.getBalanceOfAddress "B", L.getBalanceOfAddress "A")) =
      some (0, 300, -300) ∧
    (scenarioC.bind (fun L => L.minePedingTransactions H0 2 "M" "t2")).map
        (fun L => L.getBalanceOfAddress "M") = some 100 := by
  exact ⟨rfl, rfl⟩

/-- C4: the spec claims the ledger variant's block hash depends on its
transaction payload. The code's `calculateHash()` reads `this.index` and
`this.data`, which do not exist on this variant, so for every provider `H` two
blocks that agree on timestamp, prevHash, stored hash, and nonce but carry
different payloads get identical digests. -/
theorem c4_calculateHash_ignores_payload (H : String → String)
    (ts prev hsh : String) (nonce : Nat) (p1 p2 : LPayload) :
    LBlock.calculateHash H ⟨ts, p1, prev, hsh, nonce⟩ =
      LBlock.calculateHash H ⟨ts, p2, prev, hsh, nonce⟩ := rfl

/-- C6: Scenario B — after Scenario A's four-block generic-mode chain,
overwriting `chain[1].data` to `{amount:100}` and recomputing only
`chain[1].hash` makes `isChainValid()` return `false`, the first failing check
being the link check at index 2. -/
theorem c6_scenarioB_linkMismatch_at_2 :
    scenarioB.map (Blockchain.isChainValid H0) = some false ∧
    scenarioB.map (Blockchain.firstFailure H0) = some (some (.linkMismatch 2)) :=
  ⟨rfl, rfl⟩

/-- C7: whenever `mineBlock(d)` returns (in either variant), the prefix of the
block's hash of length `d` is a string of `d` `'0'` characters. -/
theorem c7_mining_zero_prefix :
    (∀ (H : String → String) (d fuel : Nat) (b b' : Block),
        Block.mineBlock H d fuel b = some b' → strTake b'.hash d = zeros d) ∧
    (∀ (H : String → String) (d fuel : Nat) (b b' : LBlock),
        LBlock.mineBlock H d fuel b = some b' → strTake b'.hash d = zeros d) := by
  constructor
  · intro H d fuel
    induction fuel with
    | zero =>
      intro b b' h
      rw [Block.mineBlock] at h
      split at h
      · cases h; assumption
      · cases h
    | succ n ih =>
      intro b b' h
      rw [Block.mineBlock] at h
      split at h
      · cases h; assumption
      · exact ih _ _ h
  · intro H d fuel
    induction fuel with
    | zero =>
      intro b b' h
      rw [LBlock.mineBlock] at h
      split at h
      · cases h; assumption
      · cases h
    | succ n ih =>
      intro b b' h
      rw [LBlock.mineBlock] at h
      split at h
      · cases h; assumption
      · exact ih _ _ h

/-- C7 witness: at difficulty 0 the loop exits at once and the length-0 prefix
is the empty string of zeros. -/
theorem c7_witness :
    Block.mineBlock id 0 0 (Block.new id 0 "t" (.str "x") "") =
      some (Block.new id 0 "t" (.str "x") "") ∧
    strTake (Block.new id 0 "t" (.str "x") "").hash 0 = zeros 0 :=
  ⟨by decide, c7_mining_zero_prefix.1 id 0 0 (Block.new id 0 "t" (.str "x") "")
    (Block.new id 0 "t" (.str "x") "") (by decide)⟩

/-- C8 counterexample: a freshly constructed generic-variant block whose stored
hash differs from `calculateHash()` over its fields as constructed (shown with
the identity provider): the constructor hashes the nonce slot as `undefined`,
not as `0`. -/
theorem c8_counterexample :
    (Block.new id 1 "t" (.amount 4) "p").hash ≠
      (Block.new id 1 "t" (.amount 4) "p").calculateHash id := by decide

/-- C8 amended: after construction `nonce = 0`, but the stored hash is the
digest of the input whose nonce slot is the string `"undefined"` (the hash is
assigned before `this.nonce = 0` runs); consequently, for any injective
provider the stored hash differs from `calculateHash()` re-evaluated on the
constructed block. -/
theorem c8_constructor_nonce_hash (H : String → String) (i : Nat) (ts : String)
    (d : JsData) (prev : String) :
    (Block.new H i ts d prev).nonce = 0 ∧
    (Block.new H i ts d prev).hash =
      H (toString i ++ prev ++ ts ++ jsonStringify d ++ "undefined") ∧
    (Function.Injective H →
      (Block.new H i ts d prev).hash ≠ (Block.new H i ts d prev).calculateHash H) := by
  refine ⟨rfl, rfl, fun hinj heq => ?_⟩
  have h2 := hinj heq
  have hlen := congrArg String.length h2
  simp only [Block.new, Block.hashInput, String.length_append] at hlen
  have h9 : String.length "undefined" = 9 := by decide
  have h1 : String.length (toString (0 : Nat)) = 1 := by decide
  rw [h9, h1] at hlen
  omega

/-- C8 witness: the amended statement at a concrete block with the identity
provider. -/
theorem c8_witness :
    (Block.new id 1 "t" (.amount 4) "p").nonce = 0 ∧
    (Block.new id 1 "t" (.amount 4) "p").hash =
      id (toString 1 ++ "p" ++ "t" ++ jsonStringify (.amount 4) ++ "undefined") ∧
    (Block.new id 1 "t" (.amount 4) "p").hash ≠
      (Block.new id 1 "t" (.amount 4) "p").calculateHash id :=
  ⟨(c8_constructor_nonce_hash id 1 "t" (.amount 4) "p").1,
   (c8_constructor_nonce_hash id 1 "t" (.amount 4) "p").2.1,
   (c8_constructor_nonce_hash id 1 "t" (.amount 4) "p").2.2 Function.injective_id⟩

/-- Two generic-variant hash inputs agreeing on everything but the serialized
data differ. -/
lemma hashInputNe (i : Nat) (p t n : String) (d1 d2 : JsData)
    (hd : jsonStringify d1 ≠ jsonStringify d2) :
    toString i ++ p ++ t ++ jsonStringify d1 ++ n ≠
      toString i ++ p ++ t ++ jsonStringify d2 ++ n := by
  intro heq
  apply hd
  apply stringEqOfDataEq
  have h := congrArg String.data heq
  simp only [dataAppend, List.append_assoc] at h
  exact List.append_cancel_right
    (List.append_cancel_left (List.append_cancel_left (List.append_cancel_left h)))

/-- Tampering with the data of the `j`-th block of a validating segment makes
the hash check fail there first. -/
lemma firstFailureFromTamper (H : String → String) (hinj : Function.Injective H) :
    ∀ (l : List Block) (k : Nat) (prev : Block) (j : Nat) (b : Block),
      l.get? j = some b →
      firstFailureFrom H k prev l = none →
      ∀ (d' : JsData), jsonStringify d' ≠ jsonStringify b.data →
      firstFailureFrom H k prev (setDataG l j d') = some (.hashMismatch (k + j)) := by
  intro l
  induction l with
  | nil =>
    intro k prev j b hb
    simp at hb
  | cons cur rest ih =>
    intro k prev j b hb hvalid d' hd
    rw [firstFailureFrom] at hvalid
    by_cases h1 : cur.hash ≠ cur.calculateHash H
    · rw [if_pos h1] at hvalid; cases hvalid
    · rw [if_neg h1] at hvalid
      by_cases h2 : cur.prevHash ≠ prev.hash
      · rw [if_pos h2] at hvalid; cases hvalid
      · rw [if_neg h2] at hvalid
        push_neg at h1
        cases j with
        | zero =>
          have hbc : cur = b := by simpa using hb
          subst hbc
          have htam : ({ cur with data := d' } : Block).hash ≠
              ({ cur with data := d' } : Block).calculateHash H := by
            intro heq
            have hcur : cur.calculateHash H = ({ cur with data := d' } : Block).calculateHash H :=
              h1.symm.trans heq
            have hinp := hinj hcur
            exact hashInputNe cur.index cur.prevHash cur.timestamp (toString cur.nonce)
              cur.data d' (fun hs => hd hs.symm) hinp
          rw [setDataG, firstFailureFrom, if_pos htam]
          rfl
        | succ j' =>
          have hb' : rest.get? j' = some b := by simpa using hb
          have hrec := ih (k + 1) cur j' b hb' hvalid d' hd
          have harith : k + 1 + j' = k + (j' + 1) := by omega
          rw [setDataG, firstFailureFrom, if_neg (not_ne_iff.mpr h1), if_neg h2, hrec, harith]

/-- C5 amended: in the generic variant, for any chain that currently passes
validation, overwriting `chain[i].data` (`i ≥ 1`) with data of different JSON
serialization while keeping the stored hash makes `isChainValid()` return
`false`, the first reported failure being the hash mismatch at index `i`. (In
the ledger variant the property fails: the payload is not hashed, see the
counterexample.) -/
theorem c5_generic_tamper_hashMismatch (H : String → String)
    (hinj : Function.Injective H) (bc : Blockchain) (i : Nat) (hi : 1 ≤ i)
    (b : Block) (hb : bc.chain.get? i = some b) (d' : JsData)
    (hvalid : bc.firstFailure H = none)
    (hd : jsonStringify d' ≠ jsonStringify b.data) :
    Blockchain.firstFailure H { bc with chain := setDataG bc.chain i d' } =
      some (.hashMismatch i) ∧
    Blockchain.isChainValid H { bc with chain := setDataG bc.chain i d' } = false := by
  rcases hch : bc.chain with _ | ⟨g, rest⟩
  · rw [hch] at hb; simp at hb
  · obtain ⟨i', rfl⟩ : ∃ i', i = i' + 1 := ⟨i - 1, by omega⟩
    rw [hch] at hb
    have hb' : rest.get? i' = some b := by simpa using hb
    simp only [Blockchain.firstFailure, hch] at hvalid
    have hfft := firstFailureFromTamper H hinj rest 1 g i' b hb' hvalid d' hd
    have harith : 1 + i' = i' + 1 := Nat.add_comm 1 i'
    rw [harith] at hfft
    have hfirst : Blockchain.firstFailure H { bc with chain := setDataG (g :: rest) (i' + 1) d' } =
        some (.hashMismatch (i' + 1)) := by
      simp only [Blockchain.firstFailure, setDataG]
      exact hfft
    refine ⟨hfirst, ?_⟩
    simp only [Blockchain.isChainValid, hfirst]

/-- C5 witness: a concrete two-block valid chain with the identity provider;
tampering block 1's data yields the hash mismatch at index 1. -/
theorem c5_witness :
    Blockchain.firstFailure id { wbc with chain := setDataG wbc.chain 1 (.amount 100) } =
      some (.hashMismatch 1) ∧
    Blockchain.isChainValid id { wbc with chain := setDataG wbc.chain 1 (.amount 100) } = false :=
  c5_generic_tamper_hashMismatch id Function.injective_id wbc 1 (by decide) wb1
    (by decide) (.amount 100) (by decide) (by decide)

/-- C5 counterexample: in the ledger variant (built through the public
operations), tampering with the mined block's transaction payload does not
produce a hash mismatch at its index — validation fails at the link check
instead, because `calculateHash()` never reads the payload. -/
theorem c5_counterexample :
    ledgerOneMine.map (fun L =>
        LBlockchain.firstFailure H0
          { L with chain := setPayloadL L.chain 1 (.txs [⟨some "A", "B", 5⟩]) }) =
      some (some (.linkMismatch 1)) ∧
    ChainFailure.linkMismatch 1 ≠ ChainFailure.hashMismatch 1 := by
  exact ⟨rfl, by decide⟩

/-- Iterating a string payload character by character leaves the balance
unchanged: a character has no `fromAddress`/`toAddress`, and `undefined`
compares `false` against any string address. -/
lemma foldlBalStepChars (address : String) :
    ∀ (cs : List Char) (bal : Int), (cs.map TxElem.ch).foldl (balStep address) bal = bal := by
  intro cs
  induction cs with
  | nil => intro bal; rfl
  | cons c cs ih =>
    intro bal
    rw [List.map_cons, List.foldl_cons]
    have hstep : balStep address bal (.ch c) = bal := by
      simp [balStep, TxElem.fromA, TxElem.toA]
    rw [hstep]
    exact ih bal

/-- The balance fold ignores every block whose payload is not a transaction
array (for any chain, any start balance). -/
lemma balanceFilter (address : String) : ∀ (chain : List LBlock) (bal : Int),
    chain.foldl (fun bal b => b.transaction.elems.foldl (balStep address) bal) bal =
      (chain.filter LBlock.hasTxArray).foldl
        (fun bal b => b.transaction.elems.foldl (balStep address) bal) bal := by
  intro chain
  induction chain with
  | nil => intro bal; rfl
  | cons b rest ih =>
    intro bal
    rcases hb : b.transaction with s | l
    · have hfalse : LBlock.hasTxArray b = false := by rw [LBlock.hasTxArray, hb]
      rw [List.foldl_cons, List.filter_cons_of_neg (by simp [hfalse]), hb]
      show rest.foldl _ ((LPayload.str s).elems.foldl (balStep address) bal) = _
      rw [LPayload.elems, foldlBalStepChars]
      exact ih bal
    · have htrue : LBlock.hasTxArray b = true := by rw [LBlock.hasTxArray, hb]
      rw [List.foldl_cons, List.filter_cons_of_pos (by simp [htrue]), List.foldl_cons]
      exact ih _

/-- C9: for every ledger-variant Ledger built through the public operations
and every address, `getBalanceOfAddress` equals the same scan restricted to
the blocks whose payload is a transaction array: blocks with a string payload
(in particular genesis) contribute nothing, and no error arises — `for...of`
iterates the string's characters, whose `fromAddress`/`toAddress` are
`undefined` and match no string address. -/
theorem c9_balance_skips_non_tx_payloads (H : String → String) (fuel : Nat)
    (ts : String) (ops : List LOp) (L : LBlockchain)
    (_h : (LBlockchain.new H ts).build H fuel ops = some L) (address : String) :
    L.getBalanceOfAddress address =
      LBlockchain.getBalanceOfAddress
        { L with chain := L.chain.filter LBlock.hasTxArray } address :=
  balanceFilter address L.chain 0

/-- C9 witness: the concrete one-mine ledger and the miner's address. -/
theorem c9_witness :
    wLedger.getBalanceOfAddress "M" =
      LBlockchain.getBalanceOfAddress
        { wLedger with chain := wLedger.chain.filter LBlock.hasTxArray } "M" :=
  c9_balance_skips_non_tx_payloads H0 2 "t0" [.mine "M" "t1"] wLedger (by decide) "M"

lemma balStepContrib (a : String) (bal : Int) (e : TxElem) :
    balStep a bal e = bal + contrib a e := by
  rw [balStep, contrib]
  split_ifs <;> ring

lemma foldlBalStepSum (a : String) : ∀ (l : List TxElem) (bal : Int),
    l.foldl (balStep a) bal = bal + (l.map (contrib a)).sum := by
  intro l
  induction l with
  | nil => intro bal; simp
  | cons e rest ih =>
    intro bal
    rw [List.foldl_cons, ih, balStepContrib, List.map_cons, List.sum_cons]
    ring

lemma chainFoldlSum (a : String) : ∀ (chain : List LBlock) (bal : Int),
    chain.foldl (fun bal b => b.transaction.elems.foldl (balStep a) bal) bal =
      bal + ((chain.map (fun b => b.transaction.elems)).flatten.map (contrib a)).sum := by
  intro chain
  induction chain with
  | nil => intro bal; simp
  | cons b rest ih =>
    intro bal
    rw [List.foldl_cons, ih, foldlBalStepSum, List.map_cons, List.flatten_cons,
      List.map_append, List.sum_append]
    ring

/-- The balance of an address, as a sum of per-element contributions. -/
lemma getBalanceEqSum (L : LBlockchain) (a : String) :
    L.getBalanceOfAddress a = (L.allElems.map (contrib a)).sum := by
  rw [LBlockchain.getBalanceOfAddress, LBlockchain.allElems, chainFoldlSum, zero_add]

lemma finsetSumListSum (S : Finset String) (f : String → TxElem → Int) :
    ∀ (l : List TxElem),
      S.sum (fun a => (l.map (f a)).sum) = (l.map (fun e => S.sum (fun a => f a e))).sum := by
  intro l
  induction l with
  | nil => simp
  | cons e rest ih =>
    simp only [List.map_cons, List.sum_cons]
    rw [Finset.sum_add_distrib, ih]

lemma toAMemAppearing (L : LBlockchain) (e : TxElem) (he : e ∈ L.allElems)
    (a : String) (ha : e.toA = some a) : a ∈ L.appearingAddresses := by
  rw [LBlockchain.appearingAddresses, List.mem_toFinset, List.mem_append]
  exact Or.inr (List.mem_filterMap.mpr ⟨e, he, ha⟩)

lemma fromAMemAppearing (L : LBlockchain) (e : TxElem) (he : e ∈ L.allElems)
    (a : String) (ha : e.fromA = some a) : a ∈ L.appearingAddresses := by
  rw [LBlockchain.appearingAddresses, List.mem_toFinset, List.mem_append]
  exact Or.inl (List.mem_filterMap.mpr ⟨e, he, ha⟩)

/-- Summed over every appearing address, an element's contribution collapses:
0 for peer-to-peer transactions and string characters, the amount for
null-sender transactions. -/
lemma sumContribElem (L : LBlockchain) (e : TxElem) (he : e ∈ L.allElems) :
    L.appearingAddresses.sum (fun a => contrib a e) = rewardContrib e := by
  rcases e with t | c
  · have hto := toAMemAppearing L (.tx t) he t.toAddress rfl
    have h1 : L.appearingAddresses.sum
        (fun a => if (TxElem.tx t).toA = some a then (TxElem.tx t).amt else 0) = t.amount := by
      simp only [TxElem.toA, TxElem.amt, Option.some.injEq]
      rw [Finset.sum_ite_eq]
      exact if_pos hto
    rcases hf : t.fromAddress with _ | f
    · have h2 : L.appearingAddresses.sum
          (fun a => if (TxElem.tx t).fromA = some a then (TxElem.tx t).amt else 0) = 0 := by
        simp [TxElem.fromA, hf]
      simp only [contrib, Finset.sum_sub_distrib, h1, h2, rewardContrib, hf]
      ring
    · have hfm := fromAMemAppearing L (.tx t) he f (by simp [TxElem.fromA, hf])
      have h2 : L.appearingAddresses.sum
          (fun a => if (TxElem.tx t).fromA = some a then (TxElem.tx t).amt else 0) = t.amount := by
        simp only [TxElem.fromA, TxElem.amt, hf, Option.some.injEq]
        rw [Finset.sum_ite_eq]
        exact if_pos hfm
      simp only [contrib, Finset.sum_sub_distrib, h1, h2, rewardContrib, hf]
      ring
  · simp [contrib, rewardContrib, TxElem.toA, TxElem.fromA]

lemma sumRewardContrib : ∀ (l : List TxElem),
    (l.map rewardContrib).sum = (l.filterMap rewardFn).sum := by
  intro l
  induction l with
  | nil => rfl
  | cons e rest ih =>
    rw [List.map_cons, List.sum_cons, ih]
    rcases e with t | c
    · rcases hf : t.fromAddress with _ | f
      · have h1 : rewardContrib (.tx t) = t.amount := by simp [rewardContrib, hf]
        have h2 : (TxElem.tx t :: rest).filterMap rewardFn =
            t.amount :: rest.filterMap rewardFn := by
          simp [List.filterMap_cons, rewardFn, hf]
        rw [h1, h2, List.sum_cons]
      · have h1 : rewardContrib (.tx t) = 0 := by simp [rewardContrib, hf]
        have h2 : (TxElem.tx t :: rest).filterMap rewardFn = rest.filterMap rewardFn := by
          simp [List.filterMap_cons, rewardFn, hf]
        rw [h1, h2, zero_add]
    · have h2 : (TxElem.ch c :: rest).filterMap rewardFn = rest.filterMap rewardFn := by
        simp [List.filterMap_cons, rewardFn]
      rw [h2]
      show (0 : Int) + _ = _
      rw [zero_add]

/-- The grand total of all balances equals the sum of the null-sender
transaction amounts embedded in the chain. -/
lemma grandTotalEqRewardSum (L : LBlockchain) :
    L.grandTotal = L.rewardAmounts.sum := by
  rw [LBlockchain.grandTotal]
  have h1 : L.appearingAddresses.sum (fun a => L.getBalanceOfAddress a) =
      L.appearingAddresses.sum (fun a => (L.allElems.map (contrib a)).sum) :=
    Finset.sum_congr rfl (fun a _ => getBalanceEqSum L a)
  rw [h1, finsetSumListSum]
  have h2 : L.allElems.map (fun e => L.appearingAddresses.sum (fun a => contrib a e)) =
      L.allElems.map rewardContrib :=
    List.map_congr_left (fun e he => sumContribElem L e he)
  rw [h2, sumRewardContrib]
  rfl

lemma rewardAmountsNil (L : LBlockchain) (hp : ∀ e ∈ L.allElems, e.p2p = true) :
    L.rewardAmounts = [] := by
  rw [LBlockchain.rewardAmounts, List.filterMap_eq_nil_iff]
  intro e he
  rcases e with t | c
  · have hit := hp (.tx t) he
    rw [TxElem.p2p] at hit
    rcases hf : t.fromAddress with _ | f
    · rw [hf] at hit; simp at hit
    · simp [rewardFn, hf]
  · rfl

lemma sumConstList (c : Int) : ∀ (l : List Int), (∀ r ∈ l, r = c) → l.sum = c * l.length := by
  intro l
  induction l with
  | nil => intro _; simp
  | cons x rest ih =>
    intro hall
    rw [List.sum_cons, ih (fun r hr => hall r (List.mem_cons_of_mem x hr)),
      hall x (List.mem_cons_self x rest), List.length_cons]
    push_cast
    ring

/-- C10: balance conservation. The grand total of `getBalanceOfAddress` over
every appearing address equals the sum of the null-sender amounts in the
chain; hence it is 0 when the chain holds only peer-to-peer transactions, and
it is `miningReward` times the number of reward transactions when every
null-sender transaction carries `miningReward` (as the ones minted by
`minePedingTransactions` do). -/
theorem c10_balance_conservation (L : LBlockchain) :
    L.grandTotal = L.rewardAmounts.sum ∧
    ((∀ e ∈ L.allElems, e.p2p = true) → L.grandTotal = 0) ∧
    ((∀ r ∈ L.rewardAmounts, r = L.miningReward) →
      L.grandTotal = L.miningReward * L.rewardAmounts.length) := by
  refine ⟨grandTotalEqRewardSum L, fun hp => ?_, fun hr => ?_⟩
  · rw [grandTotalEqRewardSum L, rewardAmountsNil L hp]; rfl
  · rw [grandTotalEqRewardSum L]
    exact sumConstList L.miningReward L.rewardAmounts hr

/-- C10 witness: a purely peer-to-peer chain sums to 0; a chain with one
reward transaction of amount `miningReward` sums to `miningReward * 1`. -/
theorem c10_witness :
    ((∀ e ∈ wLedger2.allElems, e.p2p = true) ∧ wLedger2.grandTotal = 0) ∧
    ((∀ r ∈ wLedger3.rewardAmounts, r = wLedger3.miningReward) ∧
      wLedger3.grandTotal = wLedger3.miningReward * wLedger3.rewardAmounts.length) :=
  ⟨⟨by decide, (c10_balance_conservation wLedger2).2.1 (by decide)⟩,
   ⟨by decide, (c10_balance_conservation wLedger3).2.2 (by decide)⟩⟩

end SBJS
